import Mathlib

/-!
Verification development for the flight-data cleaning scripts
(`clean_dataset.py`, `clean_airports_dates.py`, `verify_cleaned_data.py`).

Strings are embedded as lists of Unicode code points (`Str`), cell values as
`Option Str` (`none` is pandas NaN / absent), and canonical timestamps as
seconds since the Unix epoch (`Int`), which is what a UTC-normalized
pandas timestamp denotes.
-/

/-- A string value, as a list of code points. -/
abbrev Str := List Nat

/-- Code points of a Lean string literal, for concrete test vectors. -/
def strCodes (s : String) : Str := s.toList.map (fun c => c.toNat)

/-- Whitespace characters stripped by Python `str.strip()` (ASCII subset). -/
def isPySpace (c : Nat) : Bool :=
  c == 32 || c == 9 || c == 10 || c == 13 || c == 11 || c == 12

/-- Python `str.upper()` on one code point (ASCII letters; others unchanged). -/
def pyToUpperChar (c : Nat) : Nat :=
  if 97 ≤ c ∧ c ≤ 122 then c - 32 else c

/-- Python `str.strip()`: drop leading and trailing whitespace. -/
def pyStrip (s : Str) : Str :=
  ((s.dropWhile isPySpace).reverse.dropWhile isPySpace).reverse

/-- Python `str.upper()` over a whole string. -/
def pyUpper (s : Str) : Str := s.map pyToUpperChar

/-- Pandas `astype(str)` on a cell: NaN prints as the string `nan`;
a present string is unchanged. -/
def astypeStr (o : Option Str) : Str :=
  match o with
  | some s => s
  | none => strCodes ("nan")

/-- An ASCII lower-case letter (a cased character that is not upper-case). -/
def isLowerCode (c : Nat) : Bool := 97 ≤ c && c ≤ 122

/-! ## Civil (Gregorian) date arithmetic

Days-from-civil and civil-from-days in the style of the standard
era-based algorithms used by datetime libraries. -/

/-- Gregorian leap-year test. -/
def isLeap (y : Int) : Bool :=
  (y % 4 == 0 && y % 100 != 0) || y % 400 == 0

/-- Number of days in month `m` (1..12) of year `y`. -/
def daysInMonth (y : Int) (m : Nat) : Nat :=
  match m with
  | 1 => 31
  | 2 => if isLeap y then 29 else 28
  | 3 => 31
  | 4 => 30
  | 5 => 31
  | 6 => 30
  | 7 => 31
  | 8 => 31
  | 9 => 30
  | 10 => 31
  | 11 => 30
  | 12 => 31
  | _ => 0

/-- Days since 1970-01-01 of the civil date `y-m-d`. -/
def daysFromCivil (y : Int) (m d : Nat) : Int :=
  let y2 : Int := if m ≤ 2 then y - 1 else y
  let era : Int := y2.ediv 400
  let yoe : Nat := (y2 - era * 400).toNat
  let mp : Nat := if m ≤ 2 then m + 9 else m - 3
  let doy : Nat := (153 * mp + 2) / 5 + d - 1
  let doe : Nat := yoe * 365 + yoe / 4 - yoe / 100 + doy
  era * 146097 + (doe : Int) - 719468

/-- Civil date `(year, month, day)` of a day count since 1970-01-01. -/
def civilFromDays (z : Int) : Int × Nat × Nat :=
  let z2 : Int := z + 719468
  let era : Int := z2.ediv 146097
  let doe : Nat := (z2.emod 146097).toNat
  let yoe : Nat := (doe - doe / 1460 + doe / 36524 - doe / 146096) / 365
  let y : Int := (yoe : Int) + era * 400
  let doy : Nat := doe - (365 * yoe + yoe / 4 - yoe / 100)
  let mp : Nat := (5 * doy + 2) / 153
  let d : Nat := doy - (153 * mp + 2) / 5 + 1
  let m : Nat := if mp < 10 then mp + 3 else mp - 9
  (if m ≤ 2 then y + 1 else y, m, d)

/-- The month field produced by `civilFromDays` is always between 1 and 12. -/
theorem civilFromDays_month_bounds (z : Int) :
    1 ≤ (civilFromDays z).2.1 ∧ (civilFromDays z).2.1 ≤ 12 := by
  unfold civilFromDays
  have hdoe : ((z + 719468).emod 146097).toNat ≤ 146096 := by
    have h1 : (z + 719468).emod 146097 < 146097 := Int.emod_lt_of_pos _ (by norm_num)
    have h2 : 0 ≤ (z + 719468).emod 146097 := Int.emod_nonneg _ (by norm_num)
    omega
  set doe := ((z + 719468).emod 146097).toNat with hdef
  simp only []
  split <;> omega

/-! ## Timestamp parsing (`parse_datetime_safe` in `clean_dataset.py`)

The script first calls `pd.to_datetime(x, utc=True, format=ISO8601)` and,
if that raises, falls back to `pd.to_datetime(x, utc=True)`; if that also
raises it returns `pd.NaT`.  The two library calls are embedded as
`Except`-valued functions so that raising is observable. -/

/-- ASCII digit test on a code point. -/
def isDigitCode (c : Nat) : Bool := 48 ≤ c && c ≤ 57

/-- Value of an ASCII digit code point. -/
def digitVal (c : Nat) : Option Nat :=
  if isDigitCode c then some (c - 48) else none

/-- Read exactly two digits from the front of a string. -/
def read2 : Str → Option (Nat × Str)
  | a :: b :: rest =>
    match digitVal a, digitVal b with
    | some x, some y => some (10 * x + y, rest)
    | _, _ => none
  | _ => none

/-- Read exactly four digits from the front of a string. -/
def read4 : Str → Option (Nat × Str)
  | a :: b :: c :: d :: rest =>
    match digitVal a, digitVal b, digitVal c, digitVal d with
    | some w, some x, some y, some z => some (1000 * w + 100 * x + 10 * y + z, rest)
    | _, _, _, _ => none
  | _ => none

/-- Consume one expected code point. -/
def expectChar (c : Nat) : Str → Option Str
  | x :: rest => if x == c then some rest else none
  | [] => none

/-- Split a maximal run of leading digits off a string (digit values, rest). -/
def splitDigits : Str → (List Nat × Str)
  | [] => ([], [])
  | c :: rest =>
    if isDigitCode c then
      let p := splitDigits rest
      ((c - 48) :: p.1, p.2)
    else ([], c :: rest)

/-- Decimal value of a digit-value list. -/
def digitsToNat (ds : List Nat) : Nat := ds.foldl (fun a d => 10 * a + d) 0

/-- Parse `HH`, `HHMM` or `HH:MM` (the rest of a `+`/`-` offset designator),
returning the offset in seconds; the whole input must be consumed. -/
def parseOffsetHM (s : Str) : Option Int := do
  let (hh, r1) ← read2 s
  match r1 with
  | [] => if hh ≤ 23 then some ((hh * 3600 : Nat) : Int) else none
  | 58 :: r2 =>
    let (mm, r3) ← read2 r2
    if r3 = [] ∧ hh ≤ 23 ∧ mm ≤ 59 then some ((hh * 3600 + mm * 60 : Nat) : Int) else none
  | _ =>
    let (mm, r3) ← read2 r1
    if r3 = [] ∧ hh ≤ 23 ∧ mm ≤ 59 then some ((hh * 3600 + mm * 60 : Nat) : Int) else none

/-- Parse a trailing time-zone designator: empty (naive, treated as UTC
because of `utc=True`), `Z`, or `+`/`-` followed by an hour-minute offset.
Returns the offset east of UTC in seconds. -/
def parseTZ : Str → Option Int
  | [] => some 0
  | [90] => some 0
  | 43 :: rest => parseOffsetHM rest
  | 45 :: rest => (parseOffsetHM rest).map (fun o => -o)
  | _ => none

/-- Skip an optional fractional-seconds field `.d+`. -/
def parseFrac : Str → Option Str
  | 46 :: rest =>
    let p := splitDigits rest
    if p.1.isEmpty then none else some p.2
  | s => some s

/-- Parse the optional time-of-day part after the date: empty, or a
`T`/space separator followed by `HH:MM`, optional `:SS` and fraction, and a
time-zone designator.  Returns (seconds of day, offset seconds). -/
def parseTime : Str → Option (Nat × Int)
  | [] => some (0, 0)
  | sep :: rest =>
    if sep == 84 || sep == 32 then do
      let (h, r1) ← read2 rest
      let r2 ← expectChar 58 r1
      let (mi, r3) ← read2 r2
      let (sec, r4) ←
        match r3 with
        | 58 :: r =>
          (do
            let (sec, r5) ← read2 r
            let r6 ← parseFrac r5
            pure (sec, r6) : Option (Nat × Str))
        | _ => pure (0, r3)
      let off ← parseTZ r4
      if h ≤ 23 ∧ mi ≤ 59 ∧ sec ≤ 59 then
        some ((h * 3600 + mi * 60 + sec : Nat), off)
      else none
    else none

/-- Parse an ISO-8601 timestamp `YYYY-MM-DD[( |T)HH:MM[:SS[.f]]][tz]` into
seconds since the epoch, normalized to UTC; `none` on any malformation
(wrong shape, out-of-range month, day, hour, minute or second). -/
def parseISO8601 (s : Str) : Option Int := do
  let (y, r1) ← read4 s
  let r2 ← expectChar 45 r1
  let (mo, r3) ← read2 r2
  let r4 ← expectChar 45 r3
  let (d, r5) ← read2 r4
  if 1 ≤ mo ∧ mo ≤ 12 ∧ 1 ≤ d ∧ d ≤ daysInMonth (y : Int) mo then
    let (sod, off) ← parseTime r5
    some (daysFromCivil (y : Int) mo d * 86400 + (sod : Int) - off)
  else none

/-- Parse a US-style slash date `M/D/YYYY` with optional time part. -/
def parseSlash (s : Str) : Option Int :=
  let p1 := splitDigits s
  if p1.1.length = 0 ∨ 2 < p1.1.length then none else
  match p1.2 with
  | 47 :: r1 =>
    let p2 := splitDigits r1
    if p2.1.length = 0 ∨ 2 < p2.1.length then none else
    (match p2.2 with
    | 47 :: r2 =>
      let p3 := splitDigits r2
      if p3.1.length ≠ 4 then none else
      let mo := digitsToNat p1.1
      let d := digitsToNat p2.1
      let y := digitsToNat p3.1
      if 1 ≤ mo ∧ mo ≤ 12 ∧ 1 ≤ d ∧ d ≤ daysInMonth (y : Int) mo then
        match parseTime p3.2 with
        | some (sod, off) => some (daysFromCivil (y : Int) mo d * 86400 + (sod : Int) - off)
        | none => none
      else none
    | _ => none)
  | _ => none

/-- The general-purpose fallback parser of `pd.to_datetime(x, utc=True)`
(a library routine), modelled for the format families this dataset
exercises: ISO-8601 and US slash dates. -/
def parseGeneral (s : Str) : Option Int :=
  (parseISO8601 s).orElse (fun _ => parseSlash s)

/-- Models `pd.to_datetime(x, utc=True, format=ISO8601)`: a null input is
returned as NaT without raising; an unparseable string raises. -/
def to_datetime_iso8601 (o : Option Str) : Except Unit (Option Int) :=
  match o with
  | none => .ok none
  | some s =>
    match parseISO8601 s with
    | some t => .ok (some t)
    | none => .error ()

/-- Models the fallback `pd.to_datetime(x, utc=True)`: null is NaT, and an
unparseable string raises. -/
def to_datetime_general (o : Option Str) : Except Unit (Option Int) :=
  match o with
  | none => .ok none
  | some s =>
    match parseGeneral s with
    | some t => .ok (some t)
    | none => .error ()

/-- `parse_datetime_safe` from `clean_dataset.py`: try ISO-8601 parsing,
fall back to general parsing, and return NaT (`none`) if both raise. -/
def parse_datetime_safe (o : Option Str) : Option Int :=
  match to_datetime_iso8601 o with
  | .ok r => r
  | .error _ =>
    match to_datetime_general o with
    | .ok r => r
    | .error _ => none

/-! ## Derived calendar features (`.dt.hour`, `.dt.day_name()`,
`.dt.month_name()`, `.dt.date` in `clean_dataset.py`) -/

/-- Hour of day (0-23) of a UTC timestamp, as `.dt.hour` computes it. -/
def hourOf (ts : Int) : Nat := (ts.emod 86400).toNat / 3600

/-- English day label for a day-of-week index (0 = Monday), the fixed label
set of pandas `day_name()`. -/
def dayLabel (n : Nat) : Str :=
  match n with
  | 0 => strCodes ("Monday")
  | 1 => strCodes ("Tuesday")
  | 2 => strCodes ("Wednesday")
  | 3 => strCodes ("Thursday")
  | 4 => strCodes ("Friday")
  | 5 => strCodes ("Saturday")
  | 6 => strCodes ("Sunday")
  | _ => []

/-- Weekday name of a timestamp (1970-01-01 was a Thursday, index 3). -/
def weekdayName (ts : Int) : Str :=
  dayLabel ((ts.ediv 86400 + 3).emod 7).toNat

/-- English month label for a month number (1 = January), the fixed label
set of pandas `month_name()`. -/
def monthLabel (m : Nat) : Str :=
  match m with
  | 1 => strCodes ("January")
  | 2 => strCodes ("February")
  | 3 => strCodes ("March")
  | 4 => strCodes ("April")
  | 5 => strCodes ("May")
  | 6 => strCodes ("June")
  | 7 => strCodes ("July")
  | 8 => strCodes ("August")
  | 9 => strCodes ("September")
  | 10 => strCodes ("October")
  | 11 => strCodes ("November")
  | 12 => strCodes ("December")
  | _ => []

/-- Month name of a timestamp. -/
def monthName (ts : Int) : Str :=
  monthLabel (civilFromDays (ts.ediv 86400)).2.1

/-- Calendar date `(year, month, day)` of a timestamp, as `.dt.date`. -/
def dateOf (ts : Int) : Int × Nat × Nat := civilFromDays (ts.ediv 86400)

/-- The seven weekday labels, in pandas order. -/
def weekdayLabels : List Str := (List.range 7).map dayLabel

/-- The twelve month labels, in calendar order. -/
def monthLabels : List Str := (List.range 12).map (fun n => monthLabel (n + 1))

/-! ## Categorical validation (`departureorarrival` in `clean_dataset.py`) -/

/-- The allow-list enforced on `departureorarrival`. -/
def allowedDoA : List Str := [strCodes ("ARRIVAL"), strCodes ("DEPARTURE")]

/-- The validation lambda: keep a value that is in the allow-list,
replace anything else by null. -/
def validateCategory (allowed : List Str) (x : Str) : Option Str :=
  if x ∈ allowed then some x else none

/-- The `departureorarrival` normalization applied in `clean_dataset.py`:
`astype(str)` (NaN becomes the string `nan`), then strip, then upper-case.
Its output is always a present string. -/
def normalizeDoA (o : Option Str) : Option Str :=
  some (pyUpper (pyStrip (astypeStr o)))

/-- The code-like column normalization of `clean_airports_dates.py`
(`.str.strip().str.upper()`): the string accessor propagates NaN. -/
def normalizeCode (o : Option Str) : Option Str :=
  o.map (fun s => pyUpper (pyStrip s))

/-- Full cleanup of one `departureorarrival` cell: normalize, then validate
against the allow-list. -/
def cleanDoAValue (o : Option Str) : Option Str :=
  (normalizeDoA o).bind (validateCategory allowedDoA)

/-! ## Deduplication (`drop_duplicates(keep=first)` in
`clean_airports_dates.py`) -/

/-- Worker for `drop_duplicates`: walk the table, keeping a row only if it
has not been seen before. -/
def dedupSeen {α : Type} [DecidableEq α] : List α → List α → List α
  | [], _ => []
  | x :: xs, seen =>
    if x ∈ seen then dedupSeen xs seen
    else x :: dedupSeen xs (x :: seen)

/-- `df.drop_duplicates(keep=first)`: remove rows equal to an earlier row,
keeping the first occurrence of each distinct row in original order. -/
def drop_duplicates {α : Type} [DecidableEq α] (t : List α) : List α :=
  dedupSeen t []

/-- Worker for the specification-side deduplicator: keep a row exactly when
it is absent from the prefix of the table preceding it. -/
def keepFirstGo {α : Type} [DecidableEq α] : List α → List α → List α
  | [], _ => []
  | x :: xs, pre =>
    if x ∈ pre then keepFirstGo xs (pre ++ [x])
    else x :: keepFirstGo xs (pre ++ [x])

/-- Specification-side deduplicator, following the words of the spec: a record is
removed exactly when it is an exact duplicate of an earlier record, i.e.
when it already occurs in the prefix of the table before it. -/
def keepFirstOccurrences {α : Type} [DecidableEq α] (t : List α) : List α :=
  keepFirstGo t []

/-! ## The `clean_dataset.py` pipeline over tables

A dataframe row, with the columns the script touches made explicit and the
rest kept opaque. Each vectorized column operation of the script is a
row-wise map over the table. -/

structure Rec where
  operationtimeRaw : Option Str
  operationtime : Option Int
  departureorarrival : Option Str
  hour : Option Nat
  weekday : Option Str
  month : Option Str
  date : Option (Int × Nat × Nat)
  otherCols : List (Option Str)
deriving DecidableEq

/-- Step 1: `df[operationtime].apply(parse_datetime_safe)`. -/
def parseStage (t : List Rec) : List Rec :=
  t.map (fun r => { r with operationtime := parse_datetime_safe r.operationtimeRaw })

/-- Per-record feature derivation: `.dt.hour`, `.dt.day_name()`,
`.dt.month_name()`, `.dt.date`; each is NaN when the timestamp is NaT. -/
def deriveRec (r : Rec) : Rec :=
  { r with
    hour := r.operationtime.map hourOf
    weekday := r.operationtime.map weekdayName
    month := r.operationtime.map monthName
    date := r.operationtime.map dateOf }

/-- Step 2: derive the four calendar feature columns. -/
def deriveStage (t : List Rec) : List Rec := t.map deriveRec

/-- Step 3a: `astype(str).str.strip()` then `.str.upper()` on
`departureorarrival`. -/
def normalizeDoAStage (t : List Rec) : List Rec :=
  t.map (fun r => { r with departureorarrival := normalizeDoA r.departureorarrival })

/-- Step 3b: the allow-list lambda on `departureorarrival`. -/
def validateDoAStage (t : List Rec) : List Rec :=
  t.map (fun r =>
    { r with departureorarrival := r.departureorarrival.bind (validateCategory allowedDoA) })

/-! ## The `clean_airports_and_dates` pipeline (`clean_airports_dates.py`) -/

structure ARec where
  departureairport : Option Str
  arrivalairport : Option Str
  origindate : Option Str
  otherCols : List (Option Str)
deriving DecidableEq

/-- Steps 1-2: `.str.strip().str.upper()` on both airport-code columns. -/
def normalizeAirportsStage (t : List ARec) : List ARec :=
  t.map (fun r =>
    { r with
      departureairport := normalizeCode r.departureairport
      arrivalairport := normalizeCode r.arrivalairport })

/-- Render a civil date back as a `YYYY-MM-DD` string
(`dt.strftime(%Y-%m-%d)`). -/
def formatDate (ymd : Int × Nat × Nat) : Str :=
  let y := ymd.1.toNat
  let m := ymd.2.1
  let d := ymd.2.2
  [48 + y / 1000 % 10, 48 + y / 100 % 10, 48 + y / 10 % 10, 48 + y % 10, 45,
   48 + m / 10 % 10, 48 + m % 10, 45,
   48 + d / 10 % 10, 48 + d % 10]

/-- Step 3 body on one cell: `pd.to_datetime` (raises on an unparseable
string, passes NaT through) followed by `strftime(%Y-%m-%d)`. -/
def convertOrigindate (r : ARec) : Except Unit ARec :=
  match r.origindate with
  | none => .ok r
  | some s =>
    match parseGeneral s with
    | some ts => .ok { r with origindate := some (formatDate (dateOf ts)) }
    | none => .error ()

/-- Step 3: `pd.to_datetime` on the origindate column raises if any cell fails. -/
def convertDatesStage (t : List ARec) : Except Unit (List ARec) :=
  t.mapM convertOrigindate

/-- The observable effect of `clean_airports_and_dates`: the first component
is the table written to the output CSV (`none` when no file is written) and
the second records whether the report file was written.  The `except` branch
of step 3 returns from the function before deduplication and both writes. -/
def clean_airports_and_dates (t : List ARec) : Option (List ARec) × Bool :=
  match convertDatesStage (normalizeAirportsStage t) with
  | .error _ => (none, false)
  | .ok t2 => (some (drop_duplicates t2), true)

/-! ## Helper lemmas -/

/-- The head of a `dropWhile` result does not satisfy the predicate. -/
lemma head_of_dropWhile_isPySpace (l : Str) (c : Nat)
    (h : (l.dropWhile isPySpace).head? = some c) : isPySpace c = false := by
  have hd := List.head?_dropWhile_not isPySpace l
  rw [h] at hd
  exact hd

/-- Dropping a prefix does not change the last element of a nonempty result. -/
lemma getLast_of_dropWhile (p : Nat → Bool) :
    ∀ l : Str, l.dropWhile p ≠ [] → (l.dropWhile p).getLast? = l.getLast? := by
  intro l
  induction l with
  | nil => intro h; exact absurd rfl h
  | cons x xs ih =>
    intro h
    by_cases hpx : p x
    · rw [List.dropWhile_cons_of_pos hpx] at h ⊢
      rw [ih h]
      cases xs with
      | nil => rw [List.dropWhile_nil] at h; exact absurd rfl h
      | cons y ys => exact (List.getLast?_cons_cons).symm
    · rw [List.dropWhile_cons_of_neg hpx]

/-- The first character of a stripped string is not whitespace. -/
lemma pyStrip_head (s : Str) (c : Nat) (h : (pyStrip s).head? = some c) :
    isPySpace c = false := by
  unfold pyStrip at h
  rw [List.head?_reverse] at h
  by_cases hne : ((s.dropWhile isPySpace).reverse.dropWhile isPySpace) = []
  · rw [hne] at h; simp at h
  · rw [getLast_of_dropWhile _ _ hne, List.getLast?_reverse] at h
    exact head_of_dropWhile_isPySpace _ _ h

/-- The last character of a stripped string is not whitespace. -/
lemma pyStrip_getLast (s : Str) (c : Nat) (h : (pyStrip s).getLast? = some c) :
    isPySpace c = false := by
  unfold pyStrip at h
  rw [List.getLast?_reverse] at h
  exact head_of_dropWhile_isPySpace _ _ h

/-- Upper-casing never turns a non-whitespace character into whitespace. -/
lemma isPySpace_pyToUpperChar (c : Nat) (h : isPySpace c = false) :
    isPySpace (pyToUpperChar c) = false := by
  unfold pyToUpperChar
  split
  · rename_i hc
    simp only [isPySpace, Bool.or_eq_false_iff, beq_eq_false_iff_ne, ne_eq]
    omega
  · exact h

/-- Upper-casing leaves no lower-case ASCII letter behind. -/
lemma isLowerCode_pyToUpperChar (c : Nat) : isLowerCode (pyToUpperChar c) = false := by
  unfold pyToUpperChar isLowerCode
  split <;> rename_i hc <;>
    simp only [Bool.and_eq_false_iff, decide_eq_false_iff_not, not_le] <;> omega

/-- The derived hour is at most 23. -/
lemma hourOf_le (ts : Int) : hourOf ts ≤ 23 := by
  unfold hourOf
  have h1 : ts.emod 86400 < 86400 := Int.emod_lt_of_pos _ (by norm_num)
  have h2 : 0 ≤ ts.emod 86400 := Int.emod_nonneg _ (by norm_num)
  omega

/-- The derived weekday is one of the seven fixed labels. -/
lemma weekdayName_mem (ts : Int) : weekdayName ts ∈ weekdayLabels := by
  unfold weekdayName weekdayLabels
  have h1 : (ts.ediv 86400 + 3).emod 7 < 7 := Int.emod_lt_of_pos _ (by norm_num)
  have h2 : 0 ≤ (ts.ediv 86400 + 3).emod 7 := Int.emod_nonneg _ (by norm_num)
  exact List.mem_map.2
    ⟨((ts.ediv 86400 + 3).emod 7).toNat, List.mem_range.2 (by omega), rfl⟩

/-- The derived month is one of the twelve fixed labels. -/
lemma monthName_mem (ts : Int) : monthName ts ∈ monthLabels := by
  unfold monthName monthLabels
  have hb := civilFromDays_month_bounds (ts.ediv 86400)
  refine List.mem_map.2
    ⟨(civilFromDays (ts.ediv 86400)).2.1 - 1, List.mem_range.2 (by omega), ?_⟩
  congr 1
  omega

/-- Membership in a dedup pass: kept exactly the fresh elements. -/
lemma mem_dedupSeen {α : Type} [DecidableEq α] (a : α) :
    ∀ (xs seen : List α), a ∈ dedupSeen xs seen ↔ a ∈ xs ∧ a ∉ seen := by
  intro xs
  induction xs with
  | nil => intro seen; simp [dedupSeen]
  | cons x xs ih =>
    intro seen
    unfold dedupSeen
    split
    · rename_i hx
      rw [ih seen]
      simp only [List.mem_cons]
      constructor
      · rintro ⟨h1, h2⟩; exact ⟨Or.inr h1, h2⟩
      · rintro ⟨h1 | h1, h2⟩
        · exact absurd (by rw [h1]; exact hx) h2
        · exact ⟨h1, h2⟩
    · rename_i hx
      simp only [List.mem_cons, ih (x :: seen)]
      constructor
      · rintro (h | ⟨h1, h2⟩)
        · exact ⟨Or.inl h, by rw [h]; exact hx⟩
        · exact ⟨Or.inr h1, fun hc => h2 (Or.inr hc)⟩
      · rintro ⟨h1 | h1, h2⟩
        · exact Or.inl h1
        · by_cases hax : a = x
          · exact Or.inl hax
          · refine Or.inr ⟨h1, fun hc => ?_⟩
            rcases hc with h' | h'
            · exact hax h'
            · exact h2 h'

/-- A dedup pass yields a duplicate-free list. -/
lemma nodup_dedupSeen {α : Type} [DecidableEq α] :
    ∀ (xs seen : List α), (dedupSeen xs seen).Nodup := by
  intro xs
  induction xs with
  | nil => intro seen; simp [dedupSeen]
  | cons x xs ih =>
    intro seen
    unfold dedupSeen
    split
    · exact ih seen
    · refine List.nodup_cons.2 ⟨?_, ih (x :: seen)⟩
      intro hc
      exact ((mem_dedupSeen x xs (x :: seen)).1 hc).2 (List.mem_cons_self x seen)

/-- A dedup pass over a duplicate-free list disjoint from the seen set is
the identity. -/
lemma dedupSeen_eq_self {α : Type} [DecidableEq α] :
    ∀ (xs seen : List α), xs.Nodup → (∀ x ∈ xs, x ∉ seen) → dedupSeen xs seen = xs := by
  intro xs
  induction xs with
  | nil => intro seen _ _; rfl
  | cons x xs ih =>
    intro seen hnd hdisj
    unfold dedupSeen
    rw [if_neg (hdisj x (List.mem_cons_self x xs))]
    congr 1
    refine ih (x :: seen) (List.nodup_cons.1 hnd).2 ?_
    intro y hy hc
    rcases List.mem_cons.1 hc with h' | h'
    · exact (List.nodup_cons.1 hnd).1 (h' ▸ hy)
    · exact hdisj y (List.mem_cons_of_mem x hy) h'

/-- A dedup pass is a sublist of its input (rows are only removed, in
order). -/
lemma dedupSeen_sublist {α : Type} [DecidableEq α] :
    ∀ (xs seen : List α), List.Sublist (dedupSeen xs seen) xs := by
  intro xs
  induction xs with
  | nil => intro seen; simp [dedupSeen]
  | cons x xs ih =>
    intro seen
    unfold dedupSeen
    split
    · exact List.Sublist.cons x (ih seen)
    · exact List.Sublist.cons₂ x (ih (x :: seen))

/-- A dedup pass only depends on the seen accumulator through membership. -/
lemma dedupSeen_congr_seen {α : Type} [DecidableEq α] :
    ∀ (xs s1 s2 : List α), (∀ a, a ∈ s1 ↔ a ∈ s2) → dedupSeen xs s1 = dedupSeen xs s2 := by
  intro xs
  induction xs with
  | nil => intro s1 s2 _; rfl
  | cons x xs ih =>
    intro s1 s2 h
    unfold dedupSeen
    by_cases hx : x ∈ s1
    · rw [if_pos hx, if_pos ((h x).1 hx)]
      exact ih s1 s2 h
    · rw [if_neg hx, if_neg (fun hc => hx ((h x).2 hc))]
      have h2 : ∀ a, a ∈ x :: s1 ↔ a ∈ x :: s2 := by
        intro a
        simp only [List.mem_cons, h a]
      rw [ih _ _ h2]

/-- The accumulator-based dedup coincides with the prefix-based
specification walker. -/
lemma keepFirstGo_eq_dedupSeen {α : Type} [DecidableEq α] :
    ∀ (xs pre seen : List α), (∀ a, a ∈ pre ↔ a ∈ seen) →
      keepFirstGo xs pre = dedupSeen xs seen := by
  intro xs
  induction xs with
  | nil => intro pre seen _; rfl
  | cons x xs ih =>
    intro pre seen h
    unfold keepFirstGo dedupSeen
    have hnext : ∀ a, a ∈ pre ++ [x] ↔ a ∈ x :: seen := by
      intro a
      simp only [List.mem_append, List.mem_singleton, List.mem_cons, h a]
      tauto
    by_cases hmem : x ∈ pre
    · rw [if_pos hmem, if_pos ((h x).1 hmem)]
      have hs : ∀ a, a ∈ pre ++ [x] ↔ a ∈ seen := by
        intro a
        simp only [List.mem_append, List.mem_singleton, List.mem_cons,
          List.not_mem_nil, or_false, h a]
        constructor
        · rintro (ha | ha)
          · exact ha
          · rw [ha]; exact (h x).1 hmem
        · exact fun ha => Or.inl ha
      exact ih _ _ hs
    · rw [if_neg hmem, if_neg (fun hc => hmem ((h x).2 hc))]
      rw [ih _ _ hnext]

/-! ## Claim theorems -/

/-- C1: `parse_datetime_safe` returns a parsed timestamp or absent and
never propagates an exception: whichever of the two library attempts
raises, the exception is swallowed, the result of the successful attempt is
returned, and when both attempts raise the result is absent.  Null input
and the empty string resolve to absent, and a string with an explicit
offset resolves to the same canonical UTC instant as its `Z` rendering. -/
theorem parse_datetime_safe_never_raises :
    (∀ o : Option Str,
      (to_datetime_iso8601 o = .error () → to_datetime_general o = .error () →
        parse_datetime_safe o = none)
      ∧ (∀ r, to_datetime_iso8601 o = .ok r → parse_datetime_safe o = r)
      ∧ (∀ r, to_datetime_iso8601 o = .error () → to_datetime_general o = .ok r →
        parse_datetime_safe o = r))
    ∧ parse_datetime_safe none = none
    ∧ parse_datetime_safe (some []) = none
    ∧ parse_datetime_safe (some (strCodes ("2024-12-05T14:30:00+01:00"))) =
        parse_datetime_safe (some (strCodes ("2024-12-05T13:30:00Z"))) := by
  refine ⟨?_, rfl, rfl, by decide⟩
  intro o
  refine ⟨?_, ?_, ?_⟩
  · intro h1 h2
    unfold parse_datetime_safe
    rw [h1, h2]
  · intro r h
    unfold parse_datetime_safe
    rw [h]
  · intro r h1 h2
    unfold parse_datetime_safe
    rw [h1, h2]

/-- Witness for C1 at concrete inputs: an unparseable string (both attempts
raise), an ISO string (first attempt succeeds), and a slash date (first
attempt raises, fallback succeeds). -/
theorem parse_datetime_safe_never_raises_witness :
    parse_datetime_safe (some (strCodes ("garbage"))) = none
    ∧ parse_datetime_safe (some (strCodes ("2024-12-05T14:30:00Z"))) = some 1733409000
    ∧ parse_datetime_safe (some (strCodes ("12/25/2024"))) = some 1735084800 :=
  ⟨(parse_datetime_safe_never_raises.1 (some (strCodes ("garbage")))).1 rfl rfl,
   (parse_datetime_safe_never_raises.1 (some (strCodes ("2024-12-05T14:30:00Z")))).2.1
     (some 1733409000) rfl,
   (parse_datetime_safe_never_raises.1 (some (strCodes ("12/25/2024")))).2.2
     (some 1735084800) rfl rfl⟩

/-- C2: if the canonical timestamp of a record is absent, all four derived
features are absent; if it is present, the derived hour is at most 23, the
weekday is one of the seven fixed English day labels, and the month is one
of the twelve fixed English month labels. -/
theorem derive_features_absent_and_ranges :
    (∀ r : Rec, r.operationtime = none →
      (deriveRec r).hour = none ∧ (deriveRec r).weekday = none
      ∧ (deriveRec r).month = none ∧ (deriveRec r).date = none)
    ∧ (∀ r : Rec, ∀ ts : Int, r.operationtime = some ts →
      (deriveRec r).hour = some (hourOf ts) ∧ hourOf ts ≤ 23
      ∧ (deriveRec r).weekday = some (weekdayName ts) ∧ weekdayName ts ∈ weekdayLabels
      ∧ (deriveRec r).month = some (monthName ts) ∧ monthName ts ∈ monthLabels) := by
  constructor
  · intro r h
    simp [deriveRec, h]
  · intro r ts h
    exact ⟨by simp [deriveRec, h], hourOf_le ts, by simp [deriveRec, h],
      weekdayName_mem ts, by simp [deriveRec, h], monthName_mem ts⟩

/-- Witness for C2: one record with an absent timestamp and one with a
present timestamp. -/
theorem derive_features_absent_and_ranges_witness :
    ((deriveRec ⟨none, none, none, none, none, none, none, []⟩).hour = none
      ∧ (deriveRec ⟨none, none, none, none, none, none, none, []⟩).weekday = none
      ∧ (deriveRec ⟨none, none, none, none, none, none, none, []⟩).month = none
      ∧ (deriveRec ⟨none, none, none, none, none, none, none, []⟩).date = none)
    ∧ ((deriveRec ⟨none, some 1733409000, none, none, none, none, none, []⟩).hour =
        some (hourOf 1733409000)
      ∧ hourOf 1733409000 ≤ 23
      ∧ (deriveRec ⟨none, some 1733409000, none, none, none, none, none, []⟩).weekday =
        some (weekdayName 1733409000)
      ∧ weekdayName 1733409000 ∈ weekdayLabels
      ∧ (deriveRec ⟨none, some 1733409000, none, none, none, none, none, []⟩).month =
        some (monthName 1733409000)
      ∧ monthName 1733409000 ∈ monthLabels) :=
  ⟨derive_features_absent_and_ranges.1 ⟨none, none, none, none, none, none, none, []⟩ rfl,
   derive_features_absent_and_ranges.2 ⟨none, some 1733409000, none, none, none, none, none, []⟩
     1733409000 rfl⟩

/-- C3: the categorical validator keeps a value that is in the allow-list
and maps anything else to absent; the raw value with surrounding blanks and
lower case normalizes and validates to `ARRIVAL`, and `UNKNOWN` validates
to absent. -/
theorem categorical_validator_allowlist :
    (∀ x : Str,
      (x ∈ allowedDoA → validateCategory allowedDoA x = some x)
      ∧ (x ∉ allowedDoA → validateCategory allowedDoA x = none))
    ∧ cleanDoAValue (some (strCodes ("  arrival "))) = some (strCodes ("ARRIVAL"))
    ∧ cleanDoAValue (some (strCodes ("UNKNOWN"))) = none := by
  refine ⟨?_, by decide, by decide⟩
  intro x
  constructor
  · intro h
    unfold validateCategory
    rw [if_pos h]
  · intro h
    unfold validateCategory
    rw [if_neg h]

/-- Witness for C3 at a member and a non-member of the allow-list. -/
theorem categorical_validator_allowlist_witness :
    validateCategory allowedDoA (strCodes ("ARRIVAL")) = some (strCodes ("ARRIVAL"))
    ∧ validateCategory allowedDoA (strCodes ("UNKNOWN")) = none :=
  ⟨(categorical_validator_allowlist.1 (strCodes ("ARRIVAL"))).1 (by decide),
   (categorical_validator_allowlist.1 (strCodes ("UNKNOWN"))).2 (by decide)⟩

/-- C4: the strip-then-upper normalizer leaves no leading or trailing
whitespace and no lower-case cased character, and it is exactly the
per-value transform applied to `departureairport` and `arrivalairport`
(`normalizeCode`) and to `departureorarrival` (`normalizeDoA`). -/
theorem normalizer_trims_and_uppercases :
    ∀ s : Str,
      (∀ c, (pyUpper (pyStrip s)).head? = some c → isPySpace c = false)
      ∧ (∀ c, (pyUpper (pyStrip s)).getLast? = some c → isPySpace c = false)
      ∧ (∀ c ∈ pyUpper (pyStrip s), isLowerCode c = false)
      ∧ normalizeCode (some s) = some (pyUpper (pyStrip s))
      ∧ normalizeDoA (some s) = some (pyUpper (pyStrip s)) := by
  intro s
  refine ⟨?_, ?_, ?_, rfl, rfl⟩
  · intro c h
    unfold pyUpper at h
    rw [List.head?_map] at h
    cases hh : (pyStrip s).head? with
    | none => rw [hh] at h; exact absurd h (by simp)
    | some a =>
      rw [hh] at h
      have hca : pyToUpperChar a = c := by simpa using h
      rw [← hca]
      exact isPySpace_pyToUpperChar a (pyStrip_head s a hh)
  · intro c h
    unfold pyUpper at h
    rw [List.getLast?_map] at h
    cases hh : (pyStrip s).getLast? with
    | none => rw [hh] at h; exact absurd h (by simp)
    | some a =>
      rw [hh] at h
      have hca : pyToUpperChar a = c := by simpa using h
      rw [← hca]
      exact isPySpace_pyToUpperChar a (pyStrip_getLast s a hh)
  · intro c hc
    unfold pyUpper at hc
    obtain ⟨a, _, rfl⟩ := List.mem_map.1 hc
    exact isLowerCode_pyToUpperChar a

/-- Witness for C4 on a concrete mixed-case, blank-padded input whose
normalized form is `ARRIVAL`: its first and last characters are not
whitespace and its first character is not lower-case. -/
theorem normalizer_trims_and_uppercases_witness :
    isPySpace 65 = false ∧ isPySpace 76 = false ∧ isLowerCode 65 = false :=
  ⟨(normalizer_trims_and_uppercases (strCodes ("  arrival "))).1 65 (by decide),
   (normalizer_trims_and_uppercases (strCodes ("  arrival "))).2.1 76 (by decide),
   (normalizer_trims_and_uppercases (strCodes ("  arrival "))).2.2.1 65 (by decide)⟩

/-- C5 counterexample: the `departureorarrival` normalizer of
`clean_dataset.py` does not return absent on an absent input — `astype(str)`
first renders NaN as the string `nan`, so the normalized value is the
present string `NAN`. -/
theorem normalizeDoA_absent_becomes_nan :
    normalizeDoA none = some (strCodes ("NAN")) := by decide

/-- C5 amended: the airport-code normalizer (`.str.strip().str.upper()`)
propagates absent unchanged (its output is absent exactly when its input
is); the `departureorarrival` normalizer instead turns absent into the
present string `NAN`, which the subsequent allow-list validation maps back
to absent, so the combined cleanup still takes absent to absent. -/
theorem normalizer_absent_propagation_amended :
    (∀ o : Option Str, normalizeCode o = none ↔ o = none)
    ∧ normalizeDoA none = some (strCodes ("NAN"))
    ∧ cleanDoAValue none = none := by
  refine ⟨?_, by decide, by decide⟩
  intro o
  cases o <;> simp [normalizeCode]

/-- Example rows for the deduplication example (three distinct records). -/
def rowA : ARec :=
  ⟨some (strCodes ("ALG")), some (strCodes ("ORY")), some (strCodes ("2024-12-01")), []⟩

def rowB : ARec :=
  ⟨some (strCodes ("ORN")), some (strCodes ("CDG")), some (strCodes ("2024-12-02")), []⟩

def rowC : ARec :=
  ⟨some (strCodes ("CZL")), some (strCodes ("MRS")), some (strCodes ("2024-12-03")), []⟩

/-- C6: `drop_duplicates` removes exactly the records that already occur in
the prefix before them (the prefix-based specification walker), so it keeps
the first occurrence of each distinct record in first-occurrence order; no
record is lost or invented and the result is duplicate-free; the row
sequence `[A, B, A, C, B]` deduplicates to `[A, B, C]`. -/
theorem drop_duplicates_keeps_first_occurrences :
    (∀ t : List ARec, drop_duplicates t = keepFirstOccurrences t)
    ∧ (∀ t : List ARec,
      (∀ x, x ∈ drop_duplicates t ↔ x ∈ t) ∧ (drop_duplicates t).Nodup)
    ∧ drop_duplicates [rowA, rowB, rowA, rowC, rowB] = [rowA, rowB, rowC] := by
  refine ⟨?_, ?_, by decide⟩
  · intro t
    unfold drop_duplicates keepFirstOccurrences
    exact (keepFirstGo_eq_dedupSeen t [] [] (fun a => Iff.rfl)).symm
  · intro t
    refine ⟨?_, nodup_dedupSeen t []⟩
    intro x
    rw [show drop_duplicates t = dedupSeen t [] from rfl, mem_dedupSeen]
    simp

/-- C7: deduplication is idempotent: a second pass over an already
deduplicated table changes nothing. -/
theorem drop_duplicates_idempotent :
    ∀ t : List ARec, drop_duplicates (drop_duplicates t) = drop_duplicates t := by
  intro t
  unfold drop_duplicates
  exact dedupSeen_eq_self (dedupSeen t []) [] (nodup_dedupSeen t []) (by simp)

/-- C8: parsing `2024-12-05T14:30:00Z` and deriving features yields hour 14,
weekday Thursday, month December, and calendar date 2024-12-05. -/
theorem example_timestamp_features :
    ∃ ts : Int,
      parse_datetime_safe (some (strCodes ("2024-12-05T14:30:00Z"))) = some ts
      ∧ hourOf ts = 14
      ∧ weekdayName ts = strCodes ("Thursday")
      ∧ monthName ts = strCodes ("December")
      ∧ dateOf ts = (2024, 12, 5)
      ∧ formatDate (dateOf ts) = strCodes ("2024-12-05") :=
  ⟨1733409000, by decide, by decide, by decide, by decide, by decide, by decide⟩

/-- C9: normalization, timestamp parsing, feature derivation and
categorical validation preserve the number of rows; only the separate
deduplication stage can remove rows. -/
theorem stages_preserve_row_count :
    (∀ t : List Rec,
      (normalizeDoAStage t).length = t.length
      ∧ (parseStage t).length = t.length
      ∧ (deriveStage t).length = t.length
      ∧ (validateDoAStage t).length = t.length)
    ∧ (∀ t : List ARec,
      (normalizeAirportsStage t).length = t.length
      ∧ (drop_duplicates t).length ≤ t.length) := by
  constructor
  · intro t
    refine ⟨?_, ?_, ?_, ?_⟩ <;>
      simp [normalizeDoAStage, parseStage, deriveStage, validateDoAStage]
  · intro t
    exact ⟨by simp [normalizeAirportsStage], (dedupSeen_sublist t []).length_le⟩

/-- C10: if the `origindate` conversion raises, `clean_airports_and_dates`
returns immediately: no deduplication is performed, no output CSV is
written and no report is written. -/
theorem clean_airports_and_dates_aborts_on_date_error :
    ∀ t : List ARec,
      convertDatesStage (normalizeAirportsStage t) = .error () →
      clean_airports_and_dates t = (none, false) := by
  intro t h
  unfold clean_airports_and_dates
  rw [h]

/-- Witness for C10: a one-row table whose `origindate` is unparseable. -/
theorem clean_airports_and_dates_aborts_on_date_error_witness :
    clean_airports_and_dates [⟨none, none, some (strCodes ("not-a-date")), []⟩] =
      (none, false) :=
  clean_airports_and_dates_aborts_on_date_error
    [⟨none, none, some (strCodes ("not-a-date")), []⟩] rfl
